import Mathlib

/-!
Verification of `scripts/update-grafana-panel-titles.py`.

The script annotates Grafana dashboard panel titles with a short
descriptor inferred from the panel's query expressions and title.  This
file gives a shallow embedding of the script's data model and functions
and proves the specified properties about them.

Modelling conventions:
  - JSON scalar values are modelled by `JVal` (null / bool / int / string);
    panels, targets and dashboards are records whose optional fields are
    `Option`-valued (`none` = key absent or JSON null).
  - Python string operations are modelled over `List Char`:
    `in` (substring test) by `containsSubL`, `str.strip` by `pyStrip`,
    `str.lower` by `pyLower` (ASCII case folding, as all the literals the
    script compares against are ASCII), `sep.join` by `pyJoin`, and
    `str.endswith` by `endsWithL`.
  - `re.findall` for the regex `\b[a-zA-Z_:][a-zA-Z0-9_:]*\b` (METRIC_RE)
    is modelled by `findAllMetric`, a left-to-right scanner with the
    regex engine's semantics: a match attempt starts at a position where a
    word boundary holds and the first character class matches, consumes the
    maximal run of identifier characters, then backtracks the Kleene star
    until the trailing word boundary holds; on failure the scanner advances
    one character, after a match it resumes at the match end.  Word
    characters are modelled as ASCII `[a-zA-Z0-9_]`.
  - In-place mutation (`panel["title"] = ...`) is modelled by returning the
    updated record next to the boolean changed-flag; file I/O in `main` is
    modelled by passing the list of loaded documents in and returning the
    per-document write-back decisions.
-/

namespace GrafanaTitles

/-- JSON scalar values as they appear in the optional fields the script
reads (`type`, `title`, `expr`). A non-string value of any shape is
handled uniformly by the script's `isinstance` / equality checks. -/
inductive JVal where
  | jnull
  | jbool (b : Bool)
  | jnum (n : Int)
  | jstr (s : String)
deriving DecidableEq, Repr

/-- A query target: a record with an optional `expr` attribute. -/
structure Target where
  expr : Option JVal
deriving DecidableEq, Repr

/-- A dashboard panel: `type`, `title` and the target list.
`targets = none` models an absent or null `targets` key
(`panel.get("targets") or []` iterates nothing in either case). -/
structure Panel where
  type : Option JVal
  title : Option JVal
  targets : Option (List Target)
deriving DecidableEq, Repr

/-- A dashboard document: a record with an optional `panels` list. -/
structure Dashboard where
  panels : Option (List Panel)
deriving DecidableEq, Repr

/-- DASH_DIR constant from the script. -/
def DASH_DIR : String := "testing-framework/assets/stack/monitoring/grafana/dashboards"

/-- TITLE_SEP constant from the script: space, em dash, space. -/
def TITLE_SEP : String := " — "

/-! ### Python string primitives over `List Char` -/

/-- Whether `p` is a prefix of `s` (Boolean, by direct recursion). -/
def startsWithL : List Char → List Char → Bool
  | [], _ => true
  | _ :: _, [] => false
  | a :: ps, b :: ss => a == b && startsWithL ps ss

/-- Whether `p` occurs as a contiguous substring of `s`: Python's
`p in s` on strings, over the character lists. -/
def containsSubL : List Char → List Char → Bool
  | [], p => startsWithL p []
  | s@(_ :: rest), p => startsWithL p s || containsSubL rest p

/-- Whether `p` is a suffix of `s`: Python's `s.endswith(p)`. -/
def endsWithL (s p : List Char) : Bool := startsWithL p.reverse s.reverse

/-- Python's `pat in s` for strings. -/
def strContains (s pat : String) : Bool := containsSubL s.toList pat.toList

/-- Drop leading and trailing whitespace from a character list. -/
def trimL (s : List Char) : List Char :=
  (((s.dropWhile Char.isWhitespace).reverse).dropWhile Char.isWhitespace).reverse

/-- Python's `s.strip()` (whitespace as recognised by `Char.isWhitespace`;
the script only ever compares the result against emptiness). -/
def pyStrip (s : String) : String := ⟨trimL s.toList⟩

/-- ASCII lower-casing of one character, as Python's `str.lower` acts on
the ASCII range (every literal the script compares against is ASCII). -/
def pyCharLower (c : Char) : Char :=
  if 'A' ≤ c && c ≤ 'Z' then Char.ofNat (c.toNat + 32) else c

/-- Python's `s.lower()`. -/
def pyLower (s : String) : String := ⟨s.toList.map pyCharLower⟩

/-- Python's `sep.join(parts)`. -/
def pyJoin (sep : String) : List String → String
  | [] => ""
  | [e] => e
  | e :: rest => e ++ sep ++ pyJoin sep rest

/-! ### METRIC_RE and `re.findall` -/

/-- Regex word character (`\w`), restricted to ASCII. -/
def isWordChar (c : Char) : Bool :=
  ('a' ≤ c && c ≤ 'z') || ('A' ≤ c && c ≤ 'Z') || ('0' ≤ c && c ≤ '9') || c == '_'

/-- First character class of METRIC_RE: `[a-zA-Z_:]`. -/
def idStartChar (c : Char) : Bool :=
  ('a' ≤ c && c ≤ 'z') || ('A' ≤ c && c ≤ 'Z') || c == '_' || c == ':'

/-- Continuation character class of METRIC_RE: `[a-zA-Z0-9_:]`. -/
def idChar (c : Char) : Bool := idStartChar c || ('0' ≤ c && c ≤ '9')

/-- Backtracking step of a METRIC_RE match attempt: from the greedily
consumed run, give back trailing characters until the final word boundary
holds.  Characters after the run are never word characters (word

characters are identifier characters), so the boundary holds exactly when
the match's last character is a word character; if nothing survives the
attempt fails. -/
def metricTokenOfRun (run : List Char) : Option (List Char) :=
  let t := (run.reverse.dropWhile (fun c => !isWordChar c)).reverse
  if t.isEmpty then none else some t

/-- Fuelled scanner for `METRIC_RE.findall`.  `prevWord` records whether
the character just before the current position is a word character (false
at the start of the subject).  A word boundary holds at the current
position iff `prevWord` differs from the wordness of the current
character.  Each step consumes at least one character, so fuel equal to
the subject length suffices. -/
def findAllMetricF : Nat → Bool → List Char → List (List Char)
  | 0, _, _ => []
  | _ + 1, _, [] => []
  | fuel + 1, prevWord, c :: rest =>
    if idStartChar c && (prevWord != isWordChar c) then
      match metricTokenOfRun (c :: rest.takeWhile idChar) with
      | some t => t :: findAllMetricF fuel true (rest.drop (t.length - 1))
      | none => findAllMetricF fuel (isWordChar c) rest
    else
      findAllMetricF fuel (isWordChar c) rest

/-- `METRIC_RE.findall`, starting with `prevWord` as the wordness of the
character before the subject. -/
def findAllMetric (prevWord : Bool) (s : List Char) : List (List Char) :=
  findAllMetricF s.length prevWord s

/-- The `metrics` collection of `_descriptor_from_exprs`:
`{m for m in METRIC_RE.findall(all_expr) if "_" in m or ":" in m}`.
Modelled as the filtered list of matches; the set is only ever consumed
through `any(...)`, for which list and set agree. -/
def metricsOf (all_expr : String) : List (List Char) :=
  (findAllMetric false all_expr.toList).filter (fun m => m.contains '_' || m.contains ':')

/-! ### The script's functions -/

/-- Loop body of `_collect_exprs`: iterate the targets, appending each
trimmed `expr` that is a string and non-blank after trimming. -/
def collectLoop : List Target → List String → List String
  | [], acc => acc
  | t :: ts, acc =>
    match t.expr with
    | some (JVal.jstr s) =>
      if pyStrip s = "" then collectLoop ts acc
      else collectLoop ts (acc ++ [pyStrip s])
    | _ => collectLoop ts acc

/-- `_collect_exprs(panel)`. -/
def _collect_exprs (panel : Panel) : List String :=
  collectLoop (panel.targets.getD []) []

/-- `_descriptor_from_exprs(title, exprs)`.  The Python locals
`all_expr`, `lower_title` and `metrics` are pure and are inlined at each
of their use sites. -/
def _descriptor_from_exprs (title : String) (exprs : List String) : Option String :=
  if exprs.isEmpty then none
  else if strContains (pyJoin "\n" exprs) "histogram_quantile" then some "p95 latency"
  else if strContains (pyJoin "\n" exprs) "time() - on() (" then some "time since last"
  else if strContains (pyJoin "\n" exprs) "consensus_tip_height - consensus_finalized_height" then
    some "finalization gap"
  else if exprs.any (fun e => strContains e "rate(") || exprs.any (fun e => strContains e "irate(") then
    some "events/sec"
  else if strContains (pyLower title) "throughput" || strContains (pyLower title) "tps" then
    some "tx/sec"
  else if strContains (pyLower title) "errors" || strContains (pyLower title) "fail" then
    some "error rate"
  else if strContains (pyLower title) "peers" then some "peer count"
  else if strContains (pyLower title) "connections" then some "conn count"
  else if strContains (pyLower title) "queue" || strContains (pyLower title) "pending" then
    some "queue depth"
  else if (metricsOf (pyJoin "\n" exprs)).any (fun m => endsWithL m "_pending".toList) then
    some "queue depth"
  else if (metricsOf (pyJoin "\n" exprs)).any (fun m => endsWithL m "_height".toList) then
    some "height"
  else if (metricsOf (pyJoin "\n" exprs)).any (fun m => endsWithL m "_slot".toList) then
    some "slot"
  else if (metricsOf (pyJoin "\n" exprs)).any (fun m => endsWithL m "_epoch".toList) then
    some "epoch"
  else if (metricsOf (pyJoin "\n" exprs)).any (fun m => containsSubL m "connections".toList) then
    some "conn count"
  else some "current"

/-- `_update_panel_title(panel)`: the changed-flag together with the
panel after the (possible) in-place title mutation.  Python's
`if not desc` is falsy both for `None` and for the empty string, hence
the extra emptiness test on the descriptor. -/
def _update_panel_title (panel : Panel) : Bool × Panel :=
  if panel.type = some (JVal.jstr "row") then (false, panel)
  else
    match panel.title with
    | some (JVal.jstr title) =>
      if pyStrip title = "" then (false, panel)
      else if strContains title TITLE_SEP then (false, panel)
      else
        match _descriptor_from_exprs title (_collect_exprs panel) with
        | none => (false, panel)
        | some desc =>
          if desc = "" then (false, panel)
          else (true, { panel with title := some (JVal.jstr (title ++ TITLE_SEP ++ desc)) })
    | _ => (false, panel)

/-- Inner loop of `main` over one document's panels: the updated panels,
whether any panel changed, and how many panels changed. -/
def processPanels : List Panel → List Panel × Bool × Nat
  | [] => ([], false, 0)
  | p :: ps =>
    let r := _update_panel_title p
    let rest := processPanels ps
    (r.2 :: rest.1, r.1 || rest.2.1, (if r.1 then 1 else 0) + rest.2.2)

/-- One iteration of `main`'s document loop: the document after updating
its panels, the `changed` flag that decides the write-back, and the
number of panels changed in it. -/
def processDoc (d : Dashboard) : Dashboard × Bool × Nat :=
  match d.panels with
  | none => (d, false, 0)
  | some ps =>
    let r := processPanels ps
    ({ panels := some r.1 }, r.2.1, r.2.2)

/-- `main`'s loop over the loaded documents: for each document the
updated document with its write-back decision, then the totals
`changed_files` and `changed_panels`. -/
def mainLoop : List Dashboard → List (Dashboard × Bool) × Nat × Nat
  | [] => ([], 0, 0)
  | d :: ds =>
    let r := processDoc d
    let rest := mainLoop ds
    ((r.1, r.2.1) :: rest.1, (if r.2.1 then 1 else 0) + rest.2.1, r.2.2 + rest.2.2)

/-- Outcome of the `main` process: `fatal code msg` models
`raise SystemExit(msg)` with a string argument, which prints the message
and exits with status 1; `ok line code` models printing the summary line
and returning `code` as the process status. -/
inductive ExitResult where
  | fatal (code : Nat) (msg : String)
  | ok (line : String) (code : Nat)
deriving DecidableEq, Repr

/-- `main()`, over the list of documents that the sorted glob of
DASH_DIR yields (one loaded document per matched path; the glob result
is empty iff this list is). -/
def main (docs : List Dashboard) : ExitResult :=
  if docs.isEmpty then
    ExitResult.fatal 1 ("No dashboards found at " ++ DASH_DIR)
  else
    let r := mainLoop docs
    ExitResult.ok
      ("updated " ++ toString r.2.2 ++ " panels across " ++ toString r.2.1 ++ " dashboards") 0

/-- The Expression Collector's contract, written from the spec's words:
the trimmed `expr` value of every target that carries a non-blank string
expression, in target-list order.  Compared against the source's
accumulator loop in `collect_exprs_spec`. -/
def specCollectedExprs (p : Panel) : List String :=
  (p.targets.getD []).filterMap (fun t =>
    match t.expr with
    | some (JVal.jstr s) => if pyStrip s = "" then none else some (pyStrip s)
    | _ => none)

/-! ### Helper lemmas -/

theorem startsWithL_self_append (p r : List Char) : startsWithL p (p ++ r) = true := by
  induction p with
  | nil => rfl
  | cons a ps ih => simp [startsWithL, ih]

theorem containsSubL_self_append (p r : List Char) : containsSubL (p ++ r) p = true := by
  cases p with
  | nil =>
    cases r with
    | nil => rfl
    | cons c rest => simp [containsSubL, startsWithL]
  | cons a ps => simp [containsSubL, startsWithL, startsWithL_self_append]

theorem containsSubL_append_left (x y p : List Char) (h : containsSubL y p = true) :
    containsSubL (x ++ y) p = true := by
  induction x with
  | nil => simpa
  | cons a x ih => simp [containsSubL, ih]

theorem strContains_append_sep (t d : String) :
    strContains (t ++ TITLE_SEP ++ d) TITLE_SEP = true := by
  have h : (t ++ TITLE_SEP ++ d).toList = t.toList ++ (TITLE_SEP.toList ++ d.toList) := by
    show (t ++ TITLE_SEP ++ d).data = t.data ++ (TITLE_SEP.data ++ d.data)
    rw [String.data_append, String.data_append, List.append_assoc]
  rw [strContains, h]
  exact containsSubL_append_left _ _ _ (containsSubL_self_append _ _)

theorem mem_dropWhile_of_neg (p : Char → Bool) (l : List Char) (x : Char)
    (hx : x ∈ l) (hpx : p x = false) : x ∈ l.dropWhile p := by
  induction l with
  | nil => cases hx
  | cons a l ih =>
    rw [List.dropWhile_cons]
    split
    · next h =>
      rcases List.mem_cons.mp hx with rfl | hx'
      · rw [hpx] at h; cases h
      · exact ih hx'
    · exact hx

theorem trimL_ne_nil (l : List Char) (x : Char) (hx : x ∈ l)
    (hpx : x.isWhitespace = false) : trimL l ≠ [] := by
  intro h
  rw [trimL, List.reverse_eq_nil_iff] at h
  have h1 : x ∈ (l.dropWhile Char.isWhitespace).reverse :=
    List.mem_reverse.mpr (mem_dropWhile_of_neg _ _ _ hx hpx)
  have h2 := mem_dropWhile_of_neg _ _ _ h1 hpx
  rw [h] at h2
  cases h2

theorem pyStrip_append_sep_ne (t d : String) : pyStrip (t ++ TITLE_SEP ++ d) ≠ "" := by
  intro h
  have hl : trimL (t ++ TITLE_SEP ++ d).toList = [] := congrArg String.data h
  have hmem : '—' ∈ (t ++ TITLE_SEP ++ d).toList := by
    show '—' ∈ (t ++ TITLE_SEP ++ d).data
    rw [String.data_append, String.data_append]
    exact List.mem_append.mpr (Or.inl (List.mem_append.mpr (Or.inr (by decide))))
  exact trimL_ne_nil _ '—' hmem (by decide) hl

/-- Every listed ineligibility condition makes the updater report "no
change" and return the panel untouched. -/
theorem update_skips (p : Panel)
    (h : p.type = some (JVal.jstr "row")
       ∨ (∀ s, p.title ≠ some (JVal.jstr s))
       ∨ (∃ s, p.title = some (JVal.jstr s) ∧ pyStrip s = "")
       ∨ (∃ s, p.title = some (JVal.jstr s) ∧ strContains s TITLE_SEP = true)) :
    _update_panel_title p = (false, p) := by
  rcases h with h | h | ⟨s, hs, hc⟩ | ⟨s, hs, hc⟩
  · simp [_update_panel_title, h]
  · by_cases hrow : p.type = some (JVal.jstr "row")
    · simp [_update_panel_title, hrow]
    · cases ht : p.title with
      | none => simp [_update_panel_title, hrow, ht]
      | some v =>
        cases v with
        | jstr s => exact absurd ht (h s)
        | jnull => simp [_update_panel_title, hrow, ht]
        | jbool b => simp [_update_panel_title, hrow, ht]
        | jnum n => simp [_update_panel_title, hrow, ht]
  · by_cases hrow : p.type = some (JVal.jstr "row")
    · simp [_update_panel_title, hrow]
    · simp [_update_panel_title, hrow, hs, hc]
  · by_cases hrow : p.type = some (JVal.jstr "row")
    · simp [_update_panel_title, hrow]
    · by_cases hb : pyStrip s = ""
      · simp [_update_panel_title, hrow, hs, hb]
      · simp [_update_panel_title, hrow, hs, hb, hc]

/-- The updater either reports "no change" and returns the panel as it
was, or reports a change and has appended separator and descriptor to
the title. -/
theorem update_panel_title_cases (p : Panel) :
    _update_panel_title p = (false, p)
    ∨ ∃ t desc, _update_panel_title p =
        (true, { p with title := some (JVal.jstr (t ++ TITLE_SEP ++ desc)) }) := by
  unfold _update_panel_title
  split
  · exact Or.inl rfl
  · split
    · split
      · exact Or.inl rfl
      · split
        · exact Or.inl rfl
        · split
          · exact Or.inl rfl
          · split
            · exact Or.inl rfl
            · exact Or.inr ⟨_, _, rfl⟩
    · exact Or.inl rfl

theorem ite_some_ne_none {α : Type} (c : Prop) [Decidable c] (a b : Option α)
    (ha : a ≠ none) (hb : b ≠ none) : (if c then a else b) ≠ none := by
  split
  · exact ha
  · exact hb

/-! ### Claim theorems -/

/-- Claim C1: the Panel Title Updater is idempotent — applied to the
result of a first application, `_update_panel_title` reports no change
and leaves the panel (in particular its title) exactly as the first
application left it, because after a successful first application the
title contains the separator token and the separator-presence guard
blocks re-annotation. -/
theorem updater_idempotent (p : Panel) :
    _update_panel_title (_update_panel_title p).2 = (false, (_update_panel_title p).2) := by
  rcases update_panel_title_cases p with h | ⟨t, desc, h⟩
  · rw [h]; exact h
  · rw [h]
    exact update_skips _
      (Or.inr (Or.inr (Or.inr ⟨_, rfl, strContains_append_sep t desc⟩)))

/-- Claim C2: rule precedence — whenever the (non-empty) expression list
contains both the histogram-quantile marker and a rate marker, the
classifier answers "p95 latency": rule 2 wins over rule 5. -/
theorem descriptor_rule_precedence (title : String) (exprs : List String)
    (hne : exprs ≠ [])
    (hh : strContains (pyJoin "\n" exprs) "histogram_quantile" = true)
    (hr : (exprs.any (fun e => strContains e "rate(")
        || exprs.any (fun e => strContains e "irate(")) = true) :
    _descriptor_from_exprs title exprs = some "p95 latency" := by
  have hne' : exprs.isEmpty = false := by
    cases exprs with
    | nil => exact absurd rfl hne
    | cons a l => rfl
  simp [_descriptor_from_exprs, hne', hh]

/-- Witness for C2 at a concrete panel query. -/
theorem descriptor_rule_precedence_witness :
    _descriptor_from_exprs "Latency" ["histogram_quantile(0.95, rate(m[1m]))"] =
      some "p95 latency" :=
  descriptor_rule_precedence "Latency" ["histogram_quantile(0.95, rate(m[1m]))"]
    (by simp) rfl rfl

/-- Claim C3: updater eligibility exclusions — a row-type panel, an
absent or non-string or blank-after-trimming title, or a title already
containing the separator token each make the updater return `false` and
leave the panel unmodified. -/
theorem updater_exclusions (p : Panel)
    (h : p.type = some (JVal.jstr "row")
       ∨ (∀ s, p.title ≠ some (JVal.jstr s))
       ∨ (∃ s, p.title = some (JVal.jstr s) ∧ pyStrip s = "")
       ∨ (∃ s, p.title = some (JVal.jstr s) ∧ strContains s TITLE_SEP = true)) :
    _update_panel_title p = (false, p) :=
  update_skips p h

/-- Witness for C3: a row panel is returned unchanged. -/
theorem updater_exclusions_witness :
    _update_panel_title
        { type := some (JVal.jstr "row"), title := some (JVal.jstr "CPU"), targets := none } =
      (false,
        { type := some (JVal.jstr "row"), title := some (JVal.jstr "CPU"), targets := none }) :=
  updater_exclusions _ (Or.inl rfl)

/-- Claim C4: the classifier returns a null result exactly on the empty
expression list; any non-empty list produces some descriptor (at worst
the catch-all "current"). -/
theorem descriptor_none_iff_empty (title : String) (exprs : List String) :
    _descriptor_from_exprs title exprs = none ↔ exprs = [] := by
  cases exprs with
  | nil => simp [_descriptor_from_exprs]
  | cons e es =>
    constructor
    · intro h
      refine absurd h ?_
      simp only [_descriptor_from_exprs, List.isEmpty_cons]
      rw [if_neg (by simp)]
      repeat' apply ite_some_ne_none
      all_goals exact Option.some_ne_none _
    · intro h
      exact absurd h (List.cons_ne_nil e es)

theorem collectLoop_eq (ts : List Target) (acc : List String) :
    collectLoop ts acc = acc ++ ts.filterMap (fun t =>
      match t.expr with
      | some (JVal.jstr s) => if pyStrip s = "" then none else some (pyStrip s)
      | _ => none) := by
  induction ts generalizing acc with
  | nil => simp [collectLoop]
  | cons t ts ih =>
    cases he : t.expr with
    | none => simp [collectLoop, he, ih, List.filterMap_cons]
    | some v =>
      cases v with
      | jstr s =>
        by_cases hs : pyStrip s = ""
        · simp [collectLoop, he, hs, ih, List.filterMap_cons]
        · simp [collectLoop, he, hs, ih, List.filterMap_cons]
      | jnull => simp [collectLoop, he, ih, List.filterMap_cons]
      | jbool b => simp [collectLoop, he, ih, List.filterMap_cons]
      | jnum n => simp [collectLoop, he, ih, List.filterMap_cons]

/-- Claim C9: the Expression Collector returns exactly the trimmed
values of every target's string, non-blank `expr`, in target-list
order; targetless panels and absent, blank or non-string expressions
contribute nothing (and the function is total, so no error is ever
raised). -/
theorem collect_exprs_spec (p : Panel) : _collect_exprs p = specCollectedExprs p := by
  rw [_collect_exprs, specCollectedExprs, collectLoop_eq, List.nil_append]

/-- Claim C6: title-keyword fallback — once the expression-shape rules
2–5 have all failed on a non-empty expression list, the classifier
checks the lower-cased title for keyword substrings in the order
throughput/tps, errors/fail, peers, connections, queue/pending, the
first match deciding the descriptor. -/
theorem title_keyword_fallback (title : String) (exprs : List String)
    (hne : exprs ≠ [])
    (h1 : strContains (pyJoin "\n" exprs) "histogram_quantile" = false)
    (h2 : strContains (pyJoin "\n" exprs) "time() - on() (" = false)
    (h3 : strContains (pyJoin "\n" exprs) "consensus_tip_height - consensus_finalized_height" = false)
    (h4 : exprs.any (fun e => strContains e "rate(") = false)
    (h5 : exprs.any (fun e => strContains e "irate(") = false) :
    ((strContains (pyLower title) "throughput" = true ∨ strContains (pyLower title) "tps" = true) →
        _descriptor_from_exprs title exprs = some "tx/sec")
    ∧ (strContains (pyLower title) "throughput" = false →
        strContains (pyLower title) "tps" = false →
        (strContains (pyLower title) "errors" = true ∨ strContains (pyLower title) "fail" = true) →
        _descriptor_from_exprs title exprs = some "error rate")
    ∧ (strContains (pyLower title) "throughput" = false →
        strContains (pyLower title) "tps" = false →
        strContains (pyLower title) "errors" = false →
        strContains (pyLower title) "fail" = false →
        strContains (pyLower title) "peers" = true →
        _descriptor_from_exprs title exprs = some "peer count")
    ∧ (strContains (pyLower title) "throughput" = false →
        strContains (pyLower title) "tps" = false →
        strContains (pyLower title) "errors" = false →
        strContains (pyLower title) "fail" = false →
        strContains (pyLower title) "peers" = false →
        strContains (pyLower title) "connections" = true →
        _descriptor_from_exprs title exprs = some "conn count")
    ∧ (strContains (pyLower title) "throughput" = false →
        strContains (pyLower title) "tps" = false →
        strContains (pyLower title) "errors" = false →
        strContains (pyLower title) "fail" = false →
        strContains (pyLower title) "peers" = false →
        strContains (pyLower title) "connections" = false →
        (strContains (pyLower title) "queue" = true ∨ strContains (pyLower title) "pending" = true) →
        _descriptor_from_exprs title exprs = some "queue depth") := by
  have hne' : exprs.isEmpty = false := by
    cases exprs with
    | nil => exact absurd rfl hne
    | cons a l => rfl
  refine ⟨?_, ?_, ?_, ?_, ?_⟩
  · rintro (hk | hk) <;> simp [_descriptor_from_exprs, hne', h1, h2, h3, h4, h5, hk]
  · rintro k1 k2 (hk | hk) <;>
      simp [_descriptor_from_exprs, hne', h1, h2, h3, h4, h5, k1, k2, hk]
  · intro k1 k2 k3 k4 hk
    simp [_descriptor_from_exprs, hne', h1, h2, h3, h4, h5, k1, k2, k3, k4, hk]
  · intro k1 k2 k3 k4 k5 hk
    simp [_descriptor_from_exprs, hne', h1, h2, h3, h4, h5, k1, k2, k3, k4, k5, hk]
  · rintro k1 k2 k3 k4 k5 k6 (hk | hk) <;>
      simp [_descriptor_from_exprs, hne', h1, h2, h3, h4, h5, k1, k2, k3, k4, k5, k6, hk]

/-- Witness for C6: "Active Peers" with a keyword-free expression falls
through to the peers keyword. -/
theorem title_keyword_fallback_witness :
    _descriptor_from_exprs "Active Peers" ["sum(node_peers_connected)"] = some "peer count" :=
  (title_keyword_fallback "Active Peers" ["sum(node_peers_connected)"]
    (by simp) rfl rfl rfl rfl rfl).2.2.1 rfl rfl rfl rfl rfl

/-- Claim C5: metric-token fallback — once rules 2–6 have all failed on
a non-empty expression list, the classifier's answer is determined by the
identifier tokens (containing an underscore or colon) extracted from the
newline-joined expression text, in rule order `_pending`, `_height`,
`_slot`, `_epoch`, contains-"connections", first match winning. -/
theorem metric_token_fallback (title : String) (exprs : List String)
    (hne : exprs ≠ [])
    (h1 : strContains (pyJoin "\n" exprs) "histogram_quantile" = false)
    (h2 : strContains (pyJoin "\n" exprs) "time() - on() (" = false)
    (h3 : strContains (pyJoin "\n" exprs) "consensus_tip_height - consensus_finalized_height" = false)
    (h4 : exprs.any (fun e => strContains e "rate(") = false)
    (h5 : exprs.any (fun e => strContains e "irate(") = false)
    (h6 : strContains (pyLower title) "throughput" = false)
    (h7 : strContains (pyLower title) "tps" = false)
    (h8 : strContains (pyLower title) "errors" = false)
    (h9 : strContains (pyLower title) "fail" = false)
    (h10 : strContains (pyLower title) "peers" = false)
    (h11 : strContains (pyLower title) "connections" = false)
    (h12 : strContains (pyLower title) "queue" = false)
    (h13 : strContains (pyLower title) "pending" = false) :
    _descriptor_from_exprs title exprs =
      (if (metricsOf (pyJoin "\n" exprs)).any (fun m => endsWithL m "_pending".toList) then
        some "queue depth"
      else if (metricsOf (pyJoin "\n" exprs)).any (fun m => endsWithL m "_height".toList) then
        some "height"
      else if (metricsOf (pyJoin "\n" exprs)).any (fun m => endsWithL m "_slot".toList) then
        some "slot"
      else if (metricsOf (pyJoin "\n" exprs)).any (fun m => endsWithL m "_epoch".toList) then
        some "epoch"
      else if (metricsOf (pyJoin "\n" exprs)).any (fun m => containsSubL m "connections".toList) then
        some "conn count"
      else some "current") := by
  have hne' : exprs.isEmpty = false := by
    cases exprs with
    | nil => exact absurd rfl hne
    | cons a l => rfl
  simp [_descriptor_from_exprs, hne', h1, h2, h3, h4, h5, h6, h7, h8, h9, h10, h11, h12, h13]

/-- Witness for C5: a lone `mempool_txs_pending` metric classifies as
queue depth through the `_pending` token rule. -/
theorem metric_token_fallback_witness :
    _descriptor_from_exprs "Z" ["mempool_txs_pending"] = some "queue depth" :=
  (metric_token_fallback "Z" ["mempool_txs_pending"] (by simp)
    rfl rfl rfl rfl rfl rfl rfl rfl rfl rfl rfl rfl rfl).trans (by rfl)

theorem processPanels_changed_iff (ps : List Panel) :
    (processPanels ps).2.1 = true ↔ 0 < (processPanels ps).2.2 := by
  induction ps with
  | nil => simp [processPanels]
  | cons p ps ih =>
    simp only [processPanels]
    by_cases hx : (_update_panel_title p).1 = true
    · simp [hx]
    · simp only [Bool.not_eq_true] at hx
      simp [hx, ih]

theorem processDoc_changed_iff (d : Dashboard) :
    (processDoc d).2.1 = true ↔ 0 < (processDoc d).2.2 := by
  cases h : d.panels with
  | none => simp [processDoc, h]
  | some ps => simp [processDoc, h, processPanels_changed_iff]

theorem processDoc_changed_decide (d : Dashboard) :
    (processDoc d).2.1 = decide (0 < (processDoc d).2.2) := by
  cases hb : (processDoc d).2.1
  · have h := processDoc_changed_iff d
    rw [hb] at h
    simp at h
    simp [h]
  · have h := processDoc_changed_iff d
    rw [hb] at h
    simp at h
    simp [h]

/-- Claim C7: all-or-nothing per-document persistence — in the batch
loop every document's write-back flag is true exactly when the number of
its panels the updater changed is positive; a document with no changed
panel is never rewritten. -/
theorem doc_written_iff_changed (ds : List Dashboard) :
    (mainLoop ds).1 = ds.map (fun d => ((processDoc d).1, decide (0 < (processDoc d).2.2))) := by
  induction ds with
  | nil => rfl
  | cons d ds ih => simp [mainLoop, ih, processDoc_changed_decide]

theorem mainLoop_panels_total (ds : List Dashboard) :
    (mainLoop ds).2.2 = (ds.map (fun d => (processDoc d).2.2)).sum := by
  induction ds with
  | nil => rfl
  | cons d ds ih => simp [mainLoop, ih]

theorem mainLoop_files_total (ds : List Dashboard) :
    (mainLoop ds).2.1 = ((mainLoop ds).1.filter (fun r => r.2)).length := by
  induction ds with
  | nil => rfl
  | cons d ds ih =>
    simp only [mainLoop]
    cases h : (processDoc d).2.1
    · simp [h, ih, List.filter_cons]
    · simp [h, ih, List.filter_cons, Nat.add_comm]

/-- Claim C8: process exit behavior — with no matching documents the
process terminates fatally (status 1) with an error message; otherwise
it reports the one-line summary naming the total number of panels
changed and of documents rewritten, and exits with status 0. -/
theorem main_exit_behavior (docs : List Dashboard) :
    (docs = [] →
      main docs = ExitResult.fatal 1 ("No dashboards found at " ++ DASH_DIR))
    ∧ (docs ≠ [] →
      main docs = ExitResult.ok
        ("updated " ++ toString ((docs.map (fun d => (processDoc d).2.2)).sum)
          ++ " panels across "
          ++ toString (((mainLoop docs).1.filter (fun r => r.2)).length)
          ++ " dashboards") 0) := by
  constructor
  · intro h; subst h; rfl
  · intro h
    have hne : docs.isEmpty = false := by
      cases docs with
      | nil => exact absurd rfl h
      | cons a l => rfl
    simp only [main, hne, Bool.false_eq_true, if_false]
    rw [mainLoop_panels_total, mainLoop_files_total]

/-- A concrete one-panel document whose panel the updater changes (its
only expression carries an `_pending` metric token); used by the C8
witness. -/
def witnessDoc : Dashboard :=
  ⟨some [{ type := none, title := some (JVal.jstr "Mempool"),
           targets := some [{ expr := some (JVal.jstr "x_pending") }] }]⟩

/-- Witness for C8 on a one-document batch that changes one panel. -/
theorem main_exit_behavior_witness :
    main [witnessDoc] = ExitResult.ok "updated 1 panels across 1 dashboards" 0 :=
  ((main_exit_behavior [witnessDoc]).2 (by simp)).trans (by rfl)

/-! ### Permutation invariance of the classifier (claim C10) -/

theorem any_perm {α : Type} (l l' : List α) (h : l.Perm l') (f : α → Bool) :
    l.any f = l'.any f := by
  induction h with
  | nil => rfl
  | cons a _ ih => simp [List.any_cons, ih]
  | swap a b l => simp [List.any_cons, ← Bool.or_assoc, Bool.or_comm]
  | trans _ _ ih1 ih2 => rw [ih1, ih2]

theorem isEmpty_perm {α : Type} (l l' : List α) (h : l.Perm l') :
    l.isEmpty = l'.isEmpty := by
  have hlen := h.length_eq
  cases l <;> cases l' <;> simp_all

theorem startsWithL_append_sep (p : List Char) (c : Char) (hc : c ∉ p) :
    ∀ x y : List Char, startsWithL p (x ++ c :: y) = startsWithL p x := by
  induction p with
  | nil => intro x y; rfl
  | cons d p' ih =>
    intro x y
    cases x with
    | nil =>
      have hdc : (d == c) = false := by
        refine beq_eq_false_iff_ne.mpr ?_
        intro hdc
        exact hc (hdc ▸ List.mem_cons_self d p')
      show startsWithL (d :: p') (c :: y) = startsWithL (d :: p') []
      simp [startsWithL, hdc]
    | cons a x' =>
      have h' : c ∉ p' := fun hm => hc (List.mem_cons_of_mem d hm)
      show startsWithL (d :: p') (a :: (x' ++ c :: y)) = startsWithL (d :: p') (a :: x')
      simp [startsWithL, ih h' x' y]

theorem containsSubL_append_sep (p : List Char) (c : Char) (hc : c ∉ p) :
    ∀ x y : List Char,
      containsSubL (x ++ c :: y) p = (containsSubL x p || containsSubL y p) := by
  intro x
  induction x with
  | nil =>
    intro y
    have h0 := startsWithL_append_sep p c hc [] y
    simp only [List.nil_append] at h0
    show (startsWithL p (c :: y) || containsSubL y p) = (startsWithL p [] || containsSubL y p)
    rw [h0]
  | cons a x' ih =>
    intro y
    have hs := startsWithL_append_sep p c hc (a :: x') y
    simp only [List.cons_append] at hs
    show (startsWithL p (a :: (x' ++ c :: y)) || containsSubL (x' ++ c :: y) p)
        = ((startsWithL p (a :: x') || containsSubL x' p) || containsSubL y p)
    rw [hs, ih y, Bool.or_assoc]

/-- Splitting the character list of a three-way string append around the
one-character separator. -/
theorem append_sep_toList (e j : String) :
    (e ++ "\n" ++ j).toList = e.toList ++ '\n' :: j.toList := by
  show (e ++ "\n" ++ j).data = e.data ++ '\n' :: j.data
  rw [String.data_append, String.data_append, List.append_assoc]
  rfl

theorem containsSubL_pyJoin (p : List Char) (hp : p ≠ []) (hnl : '\n' ∉ p) :
    ∀ exprs : List String,
      containsSubL (pyJoin "\n" exprs).toList p
        = exprs.any (fun e => containsSubL e.toList p) := by
  intro exprs
  induction exprs with
  | nil =>
    cases p with
    | nil => exact absurd rfl hp
    | cons d p' => rfl
  | cons e rest ih =>
    cases rest with
    | nil => simp [pyJoin, List.any_cons]
    | cons e2 r2 =>
      have hj : pyJoin "\n" (e :: e2 :: r2) = e ++ "\n" ++ pyJoin "\n" (e2 :: r2) := rfl
      rw [hj, append_sep_toList, containsSubL_append_sep p '\n' hnl, ih]
      simp [List.any_cons]

theorem idChar_of_isWordChar (c : Char) (h : isWordChar c = true) : idChar c = true := by
  simp only [isWordChar, Bool.or_eq_true] at h
  simp only [idChar, idStartChar, Bool.or_eq_true]
  tauto

theorem isWordChar_eq_false_of_idChar (c : Char) (hc : idChar c = false) :
    isWordChar c = false := by
  cases h : isWordChar c
  · rfl
  · rw [idChar_of_isWordChar c h] at hc
    cases hc

theorem idStartChar_eq_false_of_idChar (c : Char) (hc : idChar c = false) :
    idStartChar c = false := by
  cases h : idStartChar c
  · rfl
  · rw [idChar, h, Bool.true_or] at hc
    cases hc

theorem takeWhile_append_sep (q : Char → Bool) (c : Char) (hc : q c = false) :
    ∀ u v : List Char, List.takeWhile q (u ++ c :: v) = List.takeWhile q u := by
  intro u v
  induction u with
  | nil => simp [List.takeWhile_cons, hc]
  | cons a u' ih =>
    cases ha : q a
    · simp [List.takeWhile_cons, ha]
    · simp [List.takeWhile_cons, ha, ih]

theorem metricTokenOfRun_length (run t : List Char) (h : metricTokenOfRun run = some t) :
    t.length ≤ run.length := by
  simp only [metricTokenOfRun] at h
  split at h
  · cases h
  · have ht := Option.some.inj h
    subst ht
    calc ((run.reverse.dropWhile (fun c => !isWordChar c)).reverse).length
        = (run.reverse.dropWhile (fun c => !isWordChar c)).length :=
          List.length_reverse _
      _ ≤ run.reverse.length := (List.dropWhile_sublist _).length_le
      _ = run.length := List.length_reverse _

theorem findAllMetricF_fuel : ∀ (n m : Nat) (b : Bool) (s : List Char),
    s.length ≤ n → s.length ≤ m → findAllMetricF n b s = findAllMetricF m b s := by
  intro n
  induction n with
  | zero =>
    intro m b s hn _
    have hs : s = [] := List.length_eq_zero.mp (Nat.le_zero.mp hn)
    subst hs
    cases m <;> rfl
  | succ n ih =>
    intro m b s hn hm
    cases s with
    | nil => cases m <;> rfl
    | cons c rest =>
      cases m with
      | zero => simp at hm
      | succ m' =>
        have hr : rest.length ≤ n := by simp at hn; omega
        have hr' : rest.length ≤ m' := by simp at hm; omega
        simp only [findAllMetricF]
        by_cases hcond : (idStartChar c && (b != isWordChar c)) = true
        · rw [if_pos hcond, if_pos hcond]
          cases htok : metricTokenOfRun (c :: rest.takeWhile idChar) with
          | none => exact ih m' (isWordChar c) rest hr hr'
          | some t =>
            have hlen : (rest.drop (t.length - 1)).length ≤ rest.length := by
              rw [List.length_drop]; omega
            show t :: findAllMetricF n true (rest.drop (t.length - 1))
                = t :: findAllMetricF m' true (rest.drop (t.length - 1))
            rw [ih m' true (rest.drop (t.length - 1)) (le_trans hlen hr) (le_trans hlen hr')]
        · rw [if_neg hcond, if_neg hcond]
          exact ih m' (isWordChar c) rest hr hr'

/-- Unfolding equation for `findAllMetric` on a non-empty subject,
phrased without the fuel parameter. -/
theorem findAllMetric_cons (b : Bool) (c : Char) (rest : List Char) :
    findAllMetric b (c :: rest) =
      (if idStartChar c && (b != isWordChar c) then
        match metricTokenOfRun (c :: rest.takeWhile idChar) with
        | some t => t :: findAllMetric true (rest.drop (t.length - 1))
        | none => findAllMetric (isWordChar c) rest
      else findAllMetric (isWordChar c) rest) := by
  show findAllMetricF (rest.length + 1) b (c :: rest) = _
  simp only [findAllMetricF]
  split
  · cases htok : metricTokenOfRun (c :: rest.takeWhile idChar) with
    | none => rfl
    | some t =>
      show t :: findAllMetricF rest.length true (rest.drop (t.length - 1))
          = t :: findAllMetric true (rest.drop (t.length - 1))
      rw [findAllMetricF_fuel rest.length (rest.drop (t.length - 1)).length true
        (rest.drop (t.length - 1)) (by rw [List.length_drop]; omega) (le_refl _)]
      rfl
  · rfl

/-- A character outside METRIC_RE's classes at the head of the subject
yields no match there: scanning continues after it with a non-word
previous character. -/
theorem findAllMetric_sep_head (c : Char) (h1 : idStartChar c = false)
    (h2 : isWordChar c = false) (b : Bool) (y : List Char) :
    findAllMetric b (c :: y) = findAllMetric false y := by
  rw [findAllMetric_cons, h1, h2]
  simp

theorem findAllMetric_append_sep (c : Char) (hc : idChar c = false) :
    ∀ (n : Nat) (x : List Char), x.length ≤ n → ∀ (y : List Char) (b : Bool),
      findAllMetric b (x ++ c :: y) = findAllMetric b x ++ findAllMetric false y := by
  have hidS : idStartChar c = false := idStartChar_eq_false_of_idChar c hc
  have hw : isWordChar c = false := isWordChar_eq_false_of_idChar c hc
  intro n
  induction n with
  | zero =>
    intro x hx y b
    have hs : x = [] := List.length_eq_zero.mp (Nat.le_zero.mp hx)
    subst hs
    rw [List.nil_append, findAllMetric_sep_head c hidS hw]
    rfl
  | succ n ih =>
    intro x hx y b
    cases x with
    | nil =>
      rw [List.nil_append, findAllMetric_sep_head c hidS hw]
      rfl
    | cons a x' =>
      have hx' : x'.length ≤ n := by simp at hx; omega
      show findAllMetric b (a :: (x' ++ c :: y)) = _
      rw [findAllMetric_cons, findAllMetric_cons b a x']
      rw [takeWhile_append_sep idChar c hc x' y]
      by_cases hcond : (idStartChar a && (b != isWordChar a)) = true
      · rw [if_pos hcond, if_pos hcond]
        cases htok : metricTokenOfRun (a :: x'.takeWhile idChar) with
        | none => exact ih x' hx' y (isWordChar a)
        | some t =>
          have htl := metricTokenOfRun_length _ _ htok
          have htw : (x'.takeWhile idChar).length ≤ x'.length :=
            (List.takeWhile_sublist _).length_le
          have hlt : t.length - 1 ≤ x'.length := by simp at htl; omega
          have hdrop : (x' ++ c :: y).drop (t.length - 1)
              = x'.drop (t.length - 1) ++ c :: y := by
            rw [List.drop_append_eq_append_drop, Nat.sub_eq_zero_of_le hlt, List.drop_zero]
          show t :: findAllMetric true ((x' ++ c :: y).drop (t.length - 1))
              = t :: (findAllMetric true (x'.drop (t.length - 1)) ++ findAllMetric false y)
          rw [hdrop, ih (x'.drop (t.length - 1)) (by rw [List.length_drop]; omega) y true]
      · rw [if_neg hcond, if_neg hcond]
        exact ih x' hx' y (isWordChar a)

/-- The matches of METRIC_RE in the newline-join are exactly the
concatenation of the matches within each expression: no token spans the
separator, and the boundary context at each seam equals that at the ends
of the subject. -/
theorem findAllMetric_pyJoin : ∀ exprs : List String,
    findAllMetric false (pyJoin "\n" exprs).toList
      = exprs.flatMap (fun e => findAllMetric false e.toList) := by
  intro exprs
  induction exprs with
  | nil => rfl
  | cons e rest ih =>
    cases rest with
    | nil => simp [pyJoin]
    | cons e2 r2 =>
      have hj : pyJoin "\n" (e :: e2 :: r2) = e ++ "\n" ++ pyJoin "\n" (e2 :: r2) := rfl
      rw [hj, append_sep_toList,
        findAllMetric_append_sep '\n' (by decide) e.toList.length e.toList (le_refl _) _ false,
        ih]
      simp [List.flatMap_cons]

theorem metricsOf_any_perm (l l' : List String) (h : l.Perm l') (f : List Char → Bool) :
    (metricsOf (pyJoin "\n" l)).any f = (metricsOf (pyJoin "\n" l')).any f := by
  rw [metricsOf, metricsOf, findAllMetric_pyJoin, findAllMetric_pyJoin,
    List.any_filter, List.any_filter, List.any_flatMap, List.any_flatMap,
    any_perm l l' h]

/-- Claim C10: the classifier is invariant under permutation of its
expression list — emptiness, the joined-text markers (none of which
contains the newline separator), the existential rate test and the
metric-token rules are each order-insensitive, and the remaining rules
read only the title. -/
theorem descriptor_perm_invariant (title : String) (l l' : List String) (h : l.Perm l') :
    _descriptor_from_exprs title l = _descriptor_from_exprs title l' := by
  have hco : ∀ p : String, p.toList ≠ [] → '\n' ∉ p.toList →
      strContains (pyJoin "\n" l) p = strContains (pyJoin "\n" l') p := by
    intro p hp hnl
    rw [strContains, strContains, containsSubL_pyJoin p.toList hp hnl l,
      containsSubL_pyJoin p.toList hp hnl l', any_perm l l' h]
  have he := isEmpty_perm l l' h
  have h1 := hco "histogram_quantile" (by decide) (by decide)
  have h2 := hco "time() - on() (" (by decide) (by decide)
  have h3 := hco "consensus_tip_height - consensus_finalized_height" (by decide) (by decide)
  have h4 := any_perm l l' h (fun e => strContains e "rate(")
  have h5 := any_perm l l' h (fun e => strContains e "irate(")
  have hm1 := metricsOf_any_perm l l' h (fun m => endsWithL m "_pending".toList)
  have hm2 := metricsOf_any_perm l l' h (fun m => endsWithL m "_height".toList)
  have hm3 := metricsOf_any_perm l l' h (fun m => endsWithL m "_slot".toList)
  have hm4 := metricsOf_any_perm l l' h (fun m => endsWithL m "_epoch".toList)
  have hm5 := metricsOf_any_perm l l' h (fun m => containsSubL m "connections".toList)
  simp only [_descriptor_from_exprs]
  rw [he, h1, h2, h3, h4, h5, hm1, hm2, hm3, hm4, hm5]

/-- Witness for C10: swapping two expressions leaves the answer
unchanged. -/
theorem descriptor_perm_invariant_witness :
    _descriptor_from_exprs "Q" ["node_height", "x_pending"]
      = _descriptor_from_exprs "Q" ["x_pending", "node_height"] :=
  descriptor_perm_invariant "Q" ["node_height", "x_pending"] ["x_pending", "node_height"]
    (List.Perm.swap "x_pending" "node_height" [])

end GrafanaTitles
